import Mathlib

/-!
Verification development for the golc chain-execution core.

The Go source is shallowly embedded: `map[string]any` value mappings become
association lists over a small value universe, fallible Go functions return
`Except Err` (or `Option Err` for error-only results), and in-place map
mutation is made explicit by returning the final state of the mutated map.
Collaborators whose code lives outside the repository (callback manager,
memory implementations, prompt templates, inner chains, the retry-go
combinator) are parameters of the embedded functions, or are modelled from
the spec where indicated.
-/

set_option maxRecDepth 4000

/-- Error universe covering the sentinel errors of the embedded code. -/
inductive Err where
  | invalidInputValues (msg : String)
  | inputValuesWrongType
  | multipleInputs
  | multipleOutputs
  | wrongOutputType
  | multipleInputsRun
  | multipleOutputsRun
  | wrongOutputTypeRun
  | missingKey (k : String)
  | typeMismatch (k : String)
  | apiError (status : Nat)
  | otherErr (tag : String)
deriving DecidableEq, Repr

/-- A schema.Document: page content plus metadata. Metadata values are
modelled as strings (the metadata value universe of this embedding). -/
structure Document where
  pageContent : String
  metadata : List (String × String)
deriving DecidableEq, Repr

/-- Value universe for `any`-typed entries of a schema.ChainValues map. -/
inductive Value where
  | str : String → Value
  | int : Int → Value
  | docs : List Document → Value
  | nilV : Value
deriving DecidableEq, Repr

/-- schema.ChainValues, a Go `map[string]any`, as an association list with
at most one binding per key (maintained by `cvInsert`). -/
abbrev ChainValues := List (String × Value)

/-- Go map read `m[k]` returning presence. -/
def cvLookup (m : ChainValues) (k : String) : Option Value :=
  match m with
  | [] => none
  | (k', v) :: rest => if k' = k then some v else cvLookup rest k

/-- Go map write `m[k] = v`: replace the binding if present, else append. -/
def cvInsert (m : ChainValues) (k : String) (v : Value) : ChainValues :=
  match m with
  | [] => [(k, v)]
  | (k', v') :: rest => if k' = k then (k, v) :: rest else (k', v') :: cvInsert rest k v

/-- util.OmitByKeys: copy of the map without the named keys. -/
def cvOmitByKeys (m : ChainValues) (ks : List String) : ChainValues :=
  m.filter (fun kv => !(ks.contains kv.fst))

/-- The merge loop `for k, v := range vars { inputs[k] = v }`. -/
def mergeInto (inputs vars : ChainValues) : ChainValues :=
  vars.foldl (fun m kv => cvInsert m kv.fst kv.snd) inputs

/-- schema.Memory. Go returns (map, error) pairs, so `loadMemoryVariables`
returns both components; `none` in the error slot means success. -/
structure Memory where
  loadMemoryVariables : ChainValues → ChainValues × Option Err
  saveContext : ChainValues → ChainValues → Option Err

/-- schema.Chain: the unit-of-work contract. `call` is the unit's own logic,
abstracted as a function of the input mapping. -/
structure Chain where
  type : String
  inputKeys : List String
  outputKeys : List String
  memory : Option Memory
  call : ChainValues → Except Err ChainValues

/-- The run manager produced by callback.NewManager / OnChainStart (code
outside src/): the three lifecycle notifications, each of which may fail,
plus the run-id value inserted under "runInfo". -/
structure RunManager where
  onChainStart : String → ChainValues → Option Err
  onChainError : Err → Option Err
  onChainEnd : ChainValues → Option Err
  runInfoVal : Value

/-- Modelled from the spec: a manager with zero registered observers. Per
section 4.2 a no-op tracker behaves identically in all other respects, so
its notifications never fail. -/
def noopRunManager : RunManager where
  onChainStart := fun _ _ => none
  onChainError := fun _ => none
  onChainEnd := fun _ => none
  runInfoVal := Value.nilV

/-- Observable collaborator interactions of one golc.Call invocation. -/
inductive Event where
  | failNote (e : Err)
  | endNote
  | memSave (inputs outputs : ChainValues)
deriving DecidableEq, Repr

/-- Whether an event is a fail notification (OnChainError). -/
def isFailNote : Event → Bool
  | .failNote _ => true
  | _ => false

/-- Whether an event is a SaveContext invocation. -/
def isMemSave : Event → Bool
  | .memSave _ _ => true
  | _ => false

/-- Result of one golc.Call invocation: the returned value-or-error, the
final state of the caller's (aliased, mutated in place) input map, and the
trace of collaborator interactions. -/
structure CallOut where
  result : Except Err ChainValues
  finalInputs : ChainValues
  events : List Event
deriving Repr

/-- The memory-enrichment step of golc.Call: `vars, _ := LoadMemoryVariables`
(the error is discarded) followed by the in-place merge loop. -/
def enrichInputs (chain : Chain) (inputs : ChainValues) : ChainValues :=
  match chain.memory with
  | none => inputs
  | some mem => mergeInto inputs (mem.loadMemoryVariables inputs).fst

/-- golc.Call: start notification, memory load and merge, the chain's own
call, save context, end notification, optional runInfo key. -/
def golcCall (rm : RunManager) (chain : Chain) (includeRunInfo : Bool)
    (inputs : ChainValues) : CallOut :=
  match rm.onChainStart chain.type inputs with
  | some e => ⟨.error e, inputs, []⟩
  | none =>
    let inputs1 := enrichInputs chain inputs
    match chain.call inputs1 with
    | .error e =>
      match rm.onChainError e with
      | some cbErr => ⟨.error cbErr, inputs1, [.failNote e]⟩
      | none => ⟨.error e, inputs1, [.failNote e]⟩
    | .ok outputs =>
      match chain.memory with
      | some mem =>
        match mem.saveContext inputs1 outputs with
        | some e => ⟨.error e, inputs1, [.memSave inputs1 outputs]⟩
        | none =>
          match rm.onChainEnd outputs with
          | some e => ⟨.error e, inputs1, [.memSave inputs1 outputs, .endNote]⟩
          | none =>
            ⟨.ok (if includeRunInfo then cvInsert outputs "runInfo" rm.runInfoVal else outputs),
              inputs1, [.memSave inputs1 outputs, .endNote]⟩
      | none =>
        match rm.onChainEnd outputs with
        | some e => ⟨.error e, inputs1, [.endNote]⟩
        | none =>
          ⟨.ok (if includeRunInfo then cvInsert outputs "runInfo" rm.runInfoVal else outputs),
            inputs1, [.endNote]⟩

/-- golc.SimpleCall: arity checks, wrap the single input under the sole
input key, delegate to golc.Call, extract the sole output as a string. -/
def golcSimpleCall (rm : RunManager) (chain : Chain) (input : Value) : Except Err String :=
  match chain.inputKeys with
  | [ik] =>
    match chain.outputKeys with
    | [okey] =>
      match (golcCall rm chain false [(ik, input)]).result with
      | .error e => .error e
      | .ok outputs =>
        match cvLookup outputs okey with
        | some (.str s) => .ok s
        | _ => .error .wrongOutputType
    | _ => .error .multipleOutputs
  | _ => .error .multipleInputs

/-- golc.BatchCall over the errgroup fan-out, modelled by its deterministic
outcome: every single-call result placed at its input's index, or the first
(in index order) error with no result slice. -/
def collectBatch (g : ChainValues → Except Err ChainValues) :
    List ChainValues → Except Err (List ChainValues)
  | [] => .ok []
  | i :: rest =>
    match g i with
    | .error e => .error e
    | .ok v =>
      match collectBatch g rest with
      | .error e => .error e
      | .ok vs => .ok (v :: vs)

/-- golc.BatchCall specialised to a run manager and chain. -/
def golcBatchCall (rm : RunManager) (chain : Chain) (inputs : List ChainValues) :
    Except Err (List ChainValues) :=
  collectBatch (fun input => (golcCall rm chain false input).result) inputs

/-- Go strings.TrimSpace: drop leading and trailing whitespace. -/
def dropWhileWs : List Char → List Char
  | [] => []
  | c :: cs => if c.isWhitespace then dropWhileWs cs else c :: cs

/-- Go strings.TrimSpace on a string: right-trim via reversal, then
left-trim. -/
def trimSpace (s : String) : String :=
  ⟨dropWhileWs ((dropWhileWs s.data.reverse).reverse)⟩

/-- chain.Run (package chain): arity checks, invoke the chain's own Call
directly (package-level chain.Call has no run manager and no memory
handling), extract the sole output as a string, trim whitespace. -/
def chainRun (chain : Chain) (input : Value) : Except Err String :=
  match chain.inputKeys with
  | [ik] =>
    match chain.outputKeys with
    | [okey] =>
      match chain.call [(ik, input)] with
      | .error e => .error e
      | .ok outputs =>
        match cvLookup outputs okey with
        | some (.str s) => .ok (trimSpace s)
        | _ => .error .wrongOutputTypeRun
    | _ => .error .multipleOutputsRun
  | _ => .error .multipleInputsRun

/-- schema.ChainValues.GetString. Modelled from the spec: the schema package
is not under src/; section 4.1 gives get-as-string failing with a type
mismatch when present but not text, and section 4.4 a missing-key error
when absent. -/
def cvGetString (m : ChainValues) (k : String) : Except Err String :=
  match cvLookup m k with
  | some (.str s) => .ok s
  | some _ => .error (.typeMismatch k)
  | none => .error (.missingKey k)

/-- Options of the StuffDocuments chain with the source defaults. -/
structure StuffDocumentsOptions where
  inputKey : String := "inputDocuments"
  documentVariableName : String := "context"
  separator : String := "\n\n"

/-- StuffDocuments: the options and the inner delegation
`golc.Call(ctx, c.llmChain, inputValues)` abstracted as a function of the
augmented map. -/
structure StuffDocuments where
  opts : StuffDocumentsOptions
  innerCall : ChainValues → Except Err ChainValues

/-- StuffDocuments.Call. Besides the chain's result it returns the mapping
the inner unit was delegated (none when the inner unit was not invoked). -/
def StuffDocuments.Call (c : StuffDocuments) (values : ChainValues) :
    Except Err ChainValues × Option ChainValues :=
  match cvLookup values c.opts.inputKey with
  | none => (.error (.invalidInputValues ("no value for inputKey " ++ c.opts.inputKey)), none)
  | some input =>
    match input with
    | .docs docs =>
      let contents := docs.map (fun doc => doc.pageContent)
      let inputValues :=
        cvInsert values c.opts.documentVariableName
          (.str (String.intercalate c.opts.separator contents))
      (c.innerCall inputValues, some inputValues)
    | _ => (.error .inputValuesWrongType, none)

/-- Options of the RefineDocuments chain with the source defaults. -/
structure RefineDocumentsOptions where
  inputKey : String := "inputDocuments"
  documentVariableName : String := "context"
  initialResponseName : String := "existingAnswer"
  outputKey : String := "text"

/-- RefineDocuments: options, the DocumentPrompt template's Format
(external prompt package, abstracted), and the two inner SimpleCall
delegations to the initial and the refine LLM chain. -/
structure RefineDocuments where
  opts : RefineDocumentsOptions
  documentPrompt : ChainValues → Except Err String
  initialCall : ChainValues → Except Err String
  refineCall : ChainValues → Except Err String

/-- docInfo of constructInitialInputs / constructRefineInputs: pageContent
first, then the document's metadata merged over it. -/
def docInfo (doc : Document) : ChainValues :=
  doc.metadata.foldl (fun m kv => cvInsert m kv.fst (.str kv.snd))
    [("pageContent", .str doc.pageContent)]

/-- RefineDocuments.constructInitialInputs. -/
def RefineDocuments.constructInitialInputs (c : RefineDocuments) (doc : Document)
    (rest : ChainValues) : Except Err ChainValues :=
  match c.documentPrompt (docInfo doc) with
  | .error e => .error e
  | .ok docText => .ok (cvInsert rest c.opts.documentVariableName (.str docText))

/-- RefineDocuments.constructRefineInputs. -/
def RefineDocuments.constructRefineInputs (c : RefineDocuments) (doc : Document)
    (lastResponse : String) (rest : ChainValues) : Except Err ChainValues :=
  match c.documentPrompt (docInfo doc) with
  | .error e => .error e
  | .ok docText =>
    .ok (cvInsert (cvInsert rest c.opts.documentVariableName (.str docText))
      c.opts.initialResponseName (.str lastResponse))

/-- One recorded inner-unit invocation of RefineDocuments. -/
inductive RefInv where
  | initialInv (inputs : ChainValues)
  | refineInv (inputs : ChainValues)
deriving DecidableEq, Repr

/-- The refine loop `for i := 1; i < len(docs); i++` with its invocation
trace. -/
def refineLoop (c : RefineDocuments) (docs : List Document) (rest : ChainValues)
    (res : String) : Except Err String × List RefInv :=
  match docs with
  | [] => (.ok res, [])
  | d :: ds =>
    match c.constructRefineInputs d res rest with
    | .error e => (.error e, [])
    | .ok refineInputs =>
      match c.refineCall refineInputs with
      | .error e => (.error e, [.refineInv refineInputs])
      | .ok res2 =>
        let (r, t) := refineLoop c ds rest res2
        (r, .refineInv refineInputs :: t)

/-- RefineDocuments.Call, with the trace of inner-unit invocations. -/
def RefineDocuments.Call (c : RefineDocuments) (values : ChainValues) :
    Except Err ChainValues × List RefInv :=
  match cvLookup values c.opts.inputKey with
  | none => (.error (.invalidInputValues ("no value for inputKey " ++ c.opts.inputKey)), [])
  | some input =>
    match input with
    | .docs docs =>
      match docs with
      | [] => (.error (.invalidInputValues "documents slice has no elements"), [])
      | d0 :: ds =>
        let rest := cvOmitByKeys values [c.opts.inputKey]
        match c.constructInitialInputs d0 rest with
        | .error e => (.error e, [])
        | .ok initialInputs =>
          match c.initialCall initialInputs with
          | .error e => (.error e, [.initialInv initialInputs])
          | .ok res0 =>
            match refineLoop c ds rest res0 with
            | (.error e, t) => (.error e, .initialInv initialInputs :: t)
            | (.ok res, t) =>
              (.ok [(c.opts.outputKey, .str (trimSpace res))], .initialInv initialInputs :: t)
    | _ => (.error .inputValuesWrongType, [])

/-- ConversationalRetrieval as needed by generateQuestion: the configured
input key and the condensing chain's golc.Call delegation together with the
condensing chain's sole output key. -/
structure ConversationalRetrieval where
  inputKey : String := "question"
  condenseCall : ChainValues → Except Err ChainValues
  condenseOutputKey : String := "text"

/-- ConversationalRetrieval.generateQuestion. The second component records
the mapping the condensing chain was invoked with (none when the condensing
unit was never invoked). The guard mirrors Go: `inputs["history"] == ""`
holds exactly when the key is present with dynamic type string and value
empty. -/
def ConversationalRetrieval.generateQuestion (c : ConversationalRetrieval)
    (inputs : ChainValues) : Except Err String × Option ChainValues :=
  if cvLookup inputs "history" = some (.str "") then
    (cvGetString inputs c.inputKey, none)
  else
    match c.condenseCall inputs with
    | .error e => (.error e, some inputs)
    | .ok output => (cvGetString output c.condenseOutputKey, some inputs)

/-- Retry delay types of the retry combinator's configuration. -/
inductive DelayType where
  | fixedDelay
  | backOffDelay
deriving DecidableEq, Repr

/-- Modelled from the spec: the retry combinator (section 4.3; the retry-go
package is an external collaborator). The operation is indexed by the
attempt number (1-based); the combinator retries while the predicate
accepts the error and the attempt budget is not exhausted, and returns the
last error otherwise, together with the number of the final attempt. -/
def retryDo (retryIf : Err → Bool) (op : Nat → Except Err String) :
    Nat → Nat → Except Err String × Nat
  | 0, attempt => (.error (.otherErr "no attempts"), attempt - 1)
  | fuel + 1, attempt =>
    match op attempt with
    | .ok a => (.ok a, attempt)
    | .error e =>
      if retryIf e && decide (0 < fuel) then retryDo retryIf op fuel (attempt + 1)
      else (.error e, attempt)

/-- The RetryIf predicate of Cohere.generateWithRetry: retry exactly on a
cohere API error with status code 429 or 500. -/
def cohereRetryIf : Err → Bool
  | .apiError status => status == 429 || status == 500
  | _ => false

/-- The MaxRetries default of NewCohereFromClient. -/
def cohereDefaultMaxRetries : Nat := 3

/-- The DelayType option of Cohere.generateWithRetry: retry.FixedDelay. -/
def cohereDelayType : DelayType := .fixedDelay

/-- The Cohere model as generateWithRetry consumes it: the configured
maximum attempt count and the client's Generate operation, indexed by
attempt number. -/
structure Cohere where
  maxRetries : Nat := cohereDefaultMaxRetries
  clientGenerate : Nat → Except Err String

/-- Cohere.generateWithRetry: retry.Do over the client operation with
Attempts(MaxRetries), FixedDelay and the 429/500 RetryIf predicate. Also
returns the number of the final attempt. -/
def Cohere.generateWithRetry (l : Cohere) : Except Err String × Nat :=
  retryDo cohereRetryIf l.clientGenerate l.maxRetries 1

/-- Whether an Except result is a success. -/
def exceptIsOk {α : Type} : Except Err α → Bool
  | .ok _ => true
  | .error _ => false

/-- Memory erasure: same loaded variables and same saveContext, but the
load step reports no error. -/
def eraseLoadErr (mem : Memory) : Memory :=
  { mem with loadMemoryVariables := fun i => ((mem.loadMemoryVariables i).fst, none) }

/-- The invocation trace and final running answer the refine loop is
claimed to produce: for each document, the inputs hold the rendering of the
document under the document variable name and the prior running answer
under the initial-response name. -/
def refineExpected (c : RefineDocuments) (fP fR : ChainValues → String)
    (rest : ChainValues) : String → List Document → List RefInv × String
  | res, [] => ([], res)
  | res, d :: ds =>
    let inp := cvInsert (cvInsert rest c.opts.documentVariableName (Value.str (fP (docInfo d))))
      c.opts.initialResponseName (Value.str res)
    let (t, fin) := refineExpected c fP fR rest (fR inp) ds
    (RefInv.refineInv inp :: t, fin)

/-- A memory that loads one variable "m" and whose saveContext succeeds. -/
def memLoadsM : Memory where
  loadMemoryVariables := fun _ => ([("m", Value.str "v")], none)
  saveContext := fun _ _ => none

/-- A chain declaring `memLoadsM` whose own call succeeds with one output. -/
def chainWithMem : Chain where
  type := "t"
  inputKeys := ["q"]
  outputKeys := ["a"]
  memory := some memLoadsM
  call := fun _ => .ok [("a", Value.str "out")]

/-- A memory whose load reports an error (alongside an empty variable map)
and whose saveContext succeeds. -/
def memLoadFails : Memory where
  loadMemoryVariables := fun _ => ([], some (Err.otherErr "load boom"))
  saveContext := fun _ _ => none

/-- A chain declaring `memLoadFails` whose own call succeeds. -/
def chainMemLoadFails : Chain where
  type := "t"
  inputKeys := ["q"]
  outputKeys := ["a"]
  memory := some memLoadFails
  call := fun _ => .ok [("a", Value.str "out")]

/-- A memory that loads nothing and whose saveContext always fails. -/
def memSaveFails : Memory where
  loadMemoryVariables := fun _ => ([], none)
  saveContext := fun _ _ => some (Err.otherErr "save boom")

/-- A chain declaring `memSaveFails` whose own call succeeds. -/
def chainMemSaveFails : Chain where
  type := "t"
  inputKeys := ["q"]
  outputKeys := ["a"]
  memory := some memSaveFails
  call := fun _ => .ok [("a", Value.str "out")]

/-- A memoryless chain whose own call always fails. -/
def chainCallFails : Chain where
  type := "t"
  inputKeys := ["q"]
  outputKeys := ["a"]
  memory := none
  call := fun _ => .error (Err.otherErr "call boom")

/-- A memoryless chain echoing its input mapping as its output mapping. -/
def chainEcho : Chain where
  type := "echo"
  inputKeys := ["id"]
  outputKeys := ["id"]
  memory := none
  call := fun m => .ok m

/-- A memoryless one-in one-out chain returning the string " hi " under
its output key. -/
def chainHi : Chain where
  type := "t"
  inputKeys := ["in"]
  outputKeys := ["out"]
  memory := none
  call := fun _ => .ok [("out", Value.str " hi ")]

/-- Rendering of the default document prompt template
`{{.pageContent}}`: the pageContent entry of the docInfo map. -/
def pcOf (m : ChainValues) : String :=
  match cvLookup m "pageContent" with
  | some (.str s) => s
  | _ => ""

/-- Reading of the running answer a refine-step input carries. -/
def prevOf (m : ChainValues) : String :=
  match cvLookup m "existingAnswer" with
  | some (.str s) => s
  | _ => "?"

/-- A concrete RefineDocuments instance with default options, the default
document prompt, a constant initial answer and a refine step that appends
"x" to the prior running answer. -/
def refineW : RefineDocuments where
  opts := {}
  documentPrompt := fun m => .ok (pcOf m)
  initialCall := fun _ => .ok "r0"
  refineCall := fun m => .ok (prevOf m ++ "x")

/-- A concrete Cohere instance with 2 max attempts whose client fails with
status 429 on the first attempt and succeeds on the second. -/
def cohere429Then : Cohere where
  maxRetries := 2
  clientGenerate := fun i => if i = 1 then .error (.apiError 429) else .ok "done"

/-- Helper: after a successful start notification, the caller's map ends as
the enriched (memory-merged) mapping on every execution path. -/
theorem golcCall_finalInputs (rm : RunManager) (chain : Chain) (b : Bool)
    (inputs : ChainValues) (hstart : rm.onChainStart chain.type inputs = none) :
    (golcCall rm chain b inputs).finalInputs = enrichInputs chain inputs := by
  simp only [golcCall, hstart]
  split
  · split <;> rfl
  · split
    · split
      · rfl
      · split <;> rfl
    · split <;> rfl

/-- C1 (counterexample): a chain with a memory that loads variable "m" and
a call that succeeds; golc.Call succeeds, but SaveContext receives the
merged mapping, not the original one supplied by the caller. -/
theorem golcCall_saveContext_original_inputs_cex :
    exceptIsOk (golcCall noopRunManager chainWithMem false [("q", Value.str "x")]).result
      = true ∧
    (golcCall noopRunManager chainWithMem false [("q", Value.str "x")]).events.filter isMemSave
      = [Event.memSave [("q", Value.str "x"), ("m", Value.str "v")] [("a", Value.str "out")]] ∧
    Event.memSave [("q", Value.str "x")] [("a", Value.str "out")]
      ∉ (golcCall noopRunManager chainWithMem false [("q", Value.str "x")]).events := by
  refine ⟨rfl, rfl, ?_⟩
  decide

/-- C1 (amended): for a chain with a Memory, when the chain's own call
succeeds SaveContext is invoked exactly once, receiving the post-merge
input mapping (original inputs with the memory-loaded variables merged in)
together with the outputs; when the chain's own call fails SaveContext is
never invoked. -/
theorem golcCall_saveContext_merged (rm : RunManager) (chain : Chain) (mem : Memory)
    (inputs : ChainValues) (hmem : chain.memory = some mem)
    (hstart : rm.onChainStart chain.type inputs = none) :
    (∀ e, chain.call (mergeInto inputs (mem.loadMemoryVariables inputs).fst) = .error e →
      (golcCall rm chain false inputs).events.filter isMemSave = []) ∧
    (∀ outs, chain.call (mergeInto inputs (mem.loadMemoryVariables inputs).fst) = .ok outs →
      (golcCall rm chain false inputs).events.filter isMemSave
        = [Event.memSave (mergeInto inputs (mem.loadMemoryVariables inputs).fst) outs]) := by
  have hen : enrichInputs chain inputs
      = mergeInto inputs (mem.loadMemoryVariables inputs).fst := by
    simp [enrichInputs, hmem]
  constructor
  · intro e he
    simp only [golcCall, hstart, hen, he]
    cases rm.onChainError e <;> simp [isMemSave]
  · intro outs houts
    simp only [golcCall, hstart, hen, houts, hmem]
    cases mem.saveContext (mergeInto inputs (mem.loadMemoryVariables inputs).fst) outs with
    | some e => simp [isMemSave]
    | none => cases rm.onChainEnd outs <;> simp [isMemSave]

/-- C1 (witness): on the concrete memory chain the single SaveContext
invocation carries the merged mapping and the outputs. -/
theorem golcCall_saveContext_merged_witness :
    (golcCall noopRunManager chainWithMem false [("q", Value.str "x")]).events.filter isMemSave
      = [Event.memSave [("q", Value.str "x"), ("m", Value.str "v")] [("a", Value.str "out")]] :=
  (golcCall_saveContext_merged noopRunManager chainWithMem memLoadsM [("q", Value.str "x")]
    rfl rfl).2 [("a", Value.str "out")] rfl

/-- C2 (counterexample): a chain whose memory's LoadMemoryVariables
reports an error; golc.Call succeeds anyway and does not return that
error. -/
theorem golcCall_load_error_propagation_cex :
    (golcCall noopRunManager chainMemLoadFails false [("q", Value.str "x")]).result
      = .ok [("a", Value.str "out")] ∧
    (golcCall noopRunManager chainMemLoadFails false [("q", Value.str "x")]).result
      ≠ .error (Err.otherErr "load boom") := by
  refine ⟨rfl, ?_⟩
  intro h
  rw [show (golcCall noopRunManager chainMemLoadFails false [("q", Value.str "x")]).result
      = Except.ok [("a", Value.str "out")] from rfl] at h
  exact Except.noConfusion h

/-- C2 (amended): golc.Call discards the error component of
LoadMemoryVariables: its behaviour is identical to that with a memory whose
load reports no error (only the loaded variables matter). -/
theorem golcCall_load_error_ignored (rm : RunManager) (chain : Chain) (mem : Memory)
    (inputs : ChainValues) (b : Bool) (hmem : chain.memory = some mem) :
    golcCall rm { chain with memory := some (eraseLoadErr mem) } b inputs
      = golcCall rm chain b inputs := by
  simp only [golcCall, enrichInputs, eraseLoadErr, hmem]

/-- C2 (witness): on the concrete chain whose load fails, erasing the load
error changes nothing. -/
theorem golcCall_load_error_ignored_witness :
    golcCall noopRunManager
      { chainMemLoadFails with memory := some (eraseLoadErr memLoadFails) } false
      [("q", Value.str "x")]
      = golcCall noopRunManager chainMemLoadFails false [("q", Value.str "x")] :=
  golcCall_load_error_ignored noopRunManager chainMemLoadFails memLoadFails
    [("q", Value.str "x")] false rfl

/-- C3 (counterexample): when SaveContext fails after a successful chain
call, golc.Call returns the save error yet emits no fail notification, so
not every failure path emits one. -/
theorem golcCall_failNote_every_failure_path_cex :
    (golcCall noopRunManager chainMemSaveFails false [("q", Value.str "x")]).result
      = .error (Err.otherErr "save boom") ∧
    (golcCall noopRunManager chainMemSaveFails false
      [("q", Value.str "x")]).events.filter isFailNote = [] :=
  ⟨rfl, rfl⟩

/-- C3 (amended): exactly one fail notification (OnChainError) is emitted
when and only when the chain's own call fails; the error is then propagated
unchanged unless OnChainError itself fails, in which case the callback
error is returned instead; failures of OnChainStart (and of the later
SaveContext / OnChainEnd steps) propagate without any fail
notification. -/
theorem golcCall_failNote_only_on_chain_call_error (rm : RunManager) (chain : Chain)
    (inputs : ChainValues) :
    (∀ e, rm.onChainStart chain.type inputs = some e →
      (golcCall rm chain false inputs).events.filter isFailNote = [] ∧
      (golcCall rm chain false inputs).result = .error e) ∧
    (rm.onChainStart chain.type inputs = none →
      (∀ e, chain.call (enrichInputs chain inputs) = .error e →
        (golcCall rm chain false inputs).events.filter isFailNote = [Event.failNote e] ∧
        (rm.onChainError e = none → (golcCall rm chain false inputs).result = .error e) ∧
        (∀ ce, rm.onChainError e = some ce →
          (golcCall rm chain false inputs).result = .error ce)) ∧
      (∀ outs, chain.call (enrichInputs chain inputs) = .ok outs →
        (golcCall rm chain false inputs).events.filter isFailNote = [])) := by
  constructor
  · intro e hs
    simp [golcCall, hs]
  · intro hs
    constructor
    · intro e he
      refine ⟨?_, ?_, ?_⟩
      · simp only [golcCall, hs, he]
        cases rm.onChainError e <;> simp [isFailNote]
      · intro hcb
        simp [golcCall, hs, he, hcb]
      · intro ce hcb
        simp [golcCall, hs, he, hcb]
    · intro outs houts
      simp only [golcCall, hs, houts]
      split
      · split
        · simp [isFailNote]
        · split <;> simp [isFailNote]
      · split <;> simp [isFailNote]

/-- C3 (witness): on a chain whose own call fails, exactly one fail
notification is emitted and the error is propagated unchanged. -/
theorem golcCall_failNote_only_on_chain_call_error_witness :
    (golcCall noopRunManager chainCallFails false [("q", Value.str "x")]).events.filter
      isFailNote = [Event.failNote (Err.otherErr "call boom")] ∧
    (golcCall noopRunManager chainCallFails false [("q", Value.str "x")]).result
      = .error (Err.otherErr "call boom") :=
  have h := (golcCall_failNote_only_on_chain_call_error noopRunManager chainCallFails
    [("q", Value.str "x")]).2 rfl
  ⟨(h.1 (Err.otherErr "call boom") rfl).1, (h.1 (Err.otherErr "call boom") rfl).2.1 rfl⟩

/-- C9 (counterexample): the caller's input map is mutated in place: after
golc.Call on a memory chain it carries the memory-loaded variable "m". -/
theorem golcCall_caller_inputs_unchanged_cex :
    (golcCall noopRunManager chainWithMem false [("q", Value.str "x")]).finalInputs
      = [("q", Value.str "x"), ("m", Value.str "v")] ∧
    (golcCall noopRunManager chainWithMem false [("q", Value.str "x")]).finalInputs
      ≠ [("q", Value.str "x")] := by
  refine ⟨rfl, ?_⟩
  decide

/-- C9 (amended): golc.Call takes no copy: for a chain without Memory the
caller's mapping is left unchanged, and for a chain with Memory the
memory-loaded variables are merged into the caller's own mapping in
place. -/
theorem golcCall_mutates_caller_inputs (rm : RunManager) (chain : Chain)
    (inputs : ChainValues) (hstart : rm.onChainStart chain.type inputs = none) :
    (chain.memory = none → (golcCall rm chain false inputs).finalInputs = inputs) ∧
    (∀ mem, chain.memory = some mem →
      (golcCall rm chain false inputs).finalInputs
        = mergeInto inputs (mem.loadMemoryVariables inputs).fst) := by
  constructor
  · intro hm
    rw [golcCall_finalInputs rm chain false inputs hstart]
    simp [enrichInputs, hm]
  · intro mem hm
    rw [golcCall_finalInputs rm chain false inputs hstart]
    simp [enrichInputs, hm]

/-- C9 (witness): on the concrete memory chain the caller's mapping ends as
the merge of the original inputs with the loaded variables. -/
theorem golcCall_mutates_caller_inputs_witness :
    (golcCall noopRunManager chainWithMem false [("q", Value.str "x")]).finalInputs
      = mergeInto [("q", Value.str "x")] [("m", Value.str "v")] :=
  (golcCall_mutates_caller_inputs noopRunManager chainWithMem [("q", Value.str "x")] rfl).2
    memLoadsM rfl

/-- Helper: when every element maps to a success, the batch collection is
the positionally aligned list of outputs. -/
theorem collectBatch_ok (g : ChainValues → Except Err ChainValues)
    (f : ChainValues → ChainValues) :
    ∀ l : List ChainValues, (∀ i ∈ l, g i = .ok (f i)) →
      collectBatch g l = .ok (l.map f) := by
  intro l
  induction l with
  | nil => intro _; rfl
  | cons i rest ih =>
    intro h
    have hi := h i (by simp)
    have hrest := ih (fun x hx => h x (by simp [hx]))
    simp [collectBatch, hi, hrest]

/-- Helper: the first (in index order) failing element's error is returned
and no result list is produced. -/
theorem collectBatch_error (g : ChainValues → Except Err ChainValues) :
    ∀ (pre : List ChainValues) (bad : ChainValues) (rest : List ChainValues) (e : Err),
      (∀ i ∈ pre, ∃ v, g i = .ok v) → g bad = .error e →
      collectBatch g (pre ++ bad :: rest) = .error e := by
  intro pre
  induction pre with
  | nil =>
    intro bad rest e _ hbad
    simp [collectBatch, hbad]
  | cons i pre ih =>
    intro bad rest e h hbad
    obtain ⟨v, hv⟩ := h i (by simp)
    have hrec := ih bad rest e (fun x hx => h x (by simp [hx])) hbad
    simp [collectBatch, hv, hrec]

/-- C4: on N inputs whose single-calls all succeed, BatchCall returns the N
outputs positionally aligned (result i is the single-call output of input
i); when some single-call fails, the first (in index order) failing
invocation's error is returned and no result list is produced. -/
theorem golcBatchCall_aligned (rm : RunManager) (chain : Chain)
    (inputs : List ChainValues) :
    (∀ f : ChainValues → ChainValues,
      (∀ i ∈ inputs, (golcCall rm chain false i).result = .ok (f i)) →
      golcBatchCall rm chain inputs = .ok (inputs.map f)) ∧
    (∀ pre bad rest e, inputs = pre ++ bad :: rest →
      (∀ i ∈ pre, ∃ v, (golcCall rm chain false i).result = .ok v) →
      (golcCall rm chain false bad).result = .error e →
      golcBatchCall rm chain inputs = .error e) := by
  constructor
  · intro f hf
    exact collectBatch_ok _ f inputs hf
  · intro pre bad rest e hsplit hpre hbad
    rw [hsplit]
    exact collectBatch_error _ pre bad rest e hpre hbad

/-- C4 (witness): batch over two inputs on an echoing chain returns the two
echoed mappings in input order. -/
theorem golcBatchCall_aligned_witness :
    golcBatchCall noopRunManager chainEcho [[("id", Value.int 1)], [("id", Value.int 2)]]
      = .ok [[("id", Value.int 1)], [("id", Value.int 2)]] :=
  (golcBatchCall_aligned noopRunManager chainEcho
    [[("id", Value.int 1)], [("id", Value.int 2)]]).1 id (by intro i _; rfl)

/-- C6: with history present and equal to the empty string, generateQuestion
returns the raw question unmodified and the condensing unit is never
invoked; with history a non-empty string (and the question present), the
condensing unit is invoked with the whole input mapping, which carries both
the history and the question. -/
theorem conversationalRetrieval_generateQuestion_spec (c : ConversationalRetrieval)
    (inputs : ChainValues) :
    (∀ q, cvLookup inputs "history" = some (Value.str "") →
      cvLookup inputs c.inputKey = some (Value.str q) →
      c.generateQuestion inputs = (.ok q, none)) ∧
    (∀ h q, cvLookup inputs "history" = some (Value.str h) → h ≠ "" →
      cvLookup inputs c.inputKey = some (Value.str q) →
      (c.generateQuestion inputs).snd = some inputs) := by
  constructor
  · intro q hh hq
    simp [ConversationalRetrieval.generateQuestion, hh, cvGetString, hq]
  · intro h q hh hne _
    simp only [ConversationalRetrieval.generateQuestion, hh]
    rw [if_neg (by simp [hne])]
    cases c.condenseCall inputs <;> rfl

/-- C6 (witness): on a concrete mapping with empty history the raw question
"q1" is returned and the condensing unit is not invoked. -/
theorem conversationalRetrieval_generateQuestion_spec_witness :
    ConversationalRetrieval.generateQuestion
      { inputKey := "question", condenseCall := fun _ => .ok [], condenseOutputKey := "text" }
      [("history", Value.str ""), ("question", Value.str "q1")]
      = (.ok "q1", none) :=
  (conversationalRetrieval_generateQuestion_spec
    { inputKey := "question", condenseCall := fun _ => .ok [], condenseOutputKey := "text" }
    [("history", Value.str ""), ("question", Value.str "q1")]).1 "q1" rfl rfl

/-- C7: StuffDocuments.Call binds under the document variable name the
concatenation of the documents' page contents joined with the configured
separator (default separator "\n\n") and delegates to the inner unit with
that augmented mapping; it fails when the input key is absent and when the
input key's value is not a Document sequence. -/
theorem stuffDocuments_call_spec (c : StuffDocuments) (values : ChainValues) :
    (∀ docs, cvLookup values c.opts.inputKey = some (Value.docs docs) →
      StuffDocuments.Call c values
        = (c.innerCall (cvInsert values c.opts.documentVariableName
            (Value.str (String.intercalate c.opts.separator
              (docs.map fun d => d.pageContent)))),
          some (cvInsert values c.opts.documentVariableName
            (Value.str (String.intercalate c.opts.separator
              (docs.map fun d => d.pageContent)))))) ∧
    (cvLookup values c.opts.inputKey = none →
      StuffDocuments.Call c values
        = (.error (.invalidInputValues ("no value for inputKey " ++ c.opts.inputKey)), none)) ∧
    (∀ v, cvLookup values c.opts.inputKey = some v → (∀ ds, v ≠ Value.docs ds) →
      StuffDocuments.Call c values = (.error .inputValuesWrongType, none)) ∧
    ({} : StuffDocumentsOptions).separator = "\n\n" := by
  refine ⟨?_, ?_, ?_, rfl⟩
  · intro docs h
    simp [StuffDocuments.Call, h]
  · intro h
    simp [StuffDocuments.Call, h]
  · intro v h hne
    cases v with
    | docs ds => exact absurd rfl (hne ds)
    | str s => simp [StuffDocuments.Call, h]
    | int n => simp [StuffDocuments.Call, h]
    | nilV => simp [StuffDocuments.Call, h]

/-- C7 (witness): page contents ["A", "B"] with default options render the
context variable as exactly "A\n\nB" in the delegated mapping. -/
theorem stuffDocuments_call_spec_witness :
    StuffDocuments.Call { opts := {}, innerCall := fun m => .ok m }
      [("inputDocuments", Value.docs [⟨"A", []⟩, ⟨"B", []⟩])]
      = (.ok [("inputDocuments", Value.docs [⟨"A", []⟩, ⟨"B", []⟩]),
          ("context", Value.str "A\n\nB")],
         some [("inputDocuments", Value.docs [⟨"A", []⟩, ⟨"B", []⟩]),
          ("context", Value.str "A\n\nB")]) :=
  (stuffDocuments_call_spec { opts := {}, innerCall := fun m => .ok m }
    [("inputDocuments", Value.docs [⟨"A", []⟩, ⟨"B", []⟩])]).1
    [⟨"A", []⟩, ⟨"B", []⟩] rfl

/-- C10: for a memoryless chain with exactly one input key and one output
key and no registered callbacks, chain.Run and golc.SimpleCall succeed or
fail together, and on success Run's result is SimpleCall's result with
surrounding whitespace trimmed. -/
theorem chainRun_refines_golcSimpleCall (chain : Chain) (input : Value) (ik okey : String)
    (hmem : chain.memory = none) (hin : chain.inputKeys = [ik])
    (hout : chain.outputKeys = [okey]) :
    exceptIsOk (chainRun chain input) = exceptIsOk (golcSimpleCall noopRunManager chain input) ∧
    (∀ s, golcSimpleCall noopRunManager chain input = .ok s →
      chainRun chain input = .ok (trimSpace s)) := by
  have hgc : (golcCall noopRunManager chain false [(ik, input)]).result
      = chain.call [(ik, input)] := by
    simp only [golcCall, noopRunManager, enrichInputs, hmem]
    split <;> (rename_i heq; rw [heq]; try rfl)
  cases hc : chain.call [(ik, input)] with
  | error e =>
    constructor
    · simp [chainRun, golcSimpleCall, hin, hout, hgc, hc, exceptIsOk]
    · intro s hs
      simp [golcSimpleCall, hin, hout, hgc, hc] at hs
  | ok outs =>
    cases hv : cvLookup outs okey with
    | none =>
      constructor
      · simp [chainRun, golcSimpleCall, hin, hout, hgc, hc, hv, exceptIsOk]
      · intro s hs
        simp [golcSimpleCall, hin, hout, hgc, hc, hv] at hs
    | some v =>
      constructor
      · cases v <;> simp [chainRun, golcSimpleCall, hin, hout, hgc, hc, hv, exceptIsOk]
      · intro s hs
        cases v with
        | str s0 =>
          simp [golcSimpleCall, hin, hout, hgc, hc, hv] at hs
          simp [chainRun, hin, hout, hc, hv, hs]
        | int n => simp [golcSimpleCall, hin, hout, hgc, hc, hv] at hs
        | docs ds => simp [golcSimpleCall, hin, hout, hgc, hc, hv] at hs
        | nilV => simp [golcSimpleCall, hin, hout, hgc, hc, hv] at hs

/-- C10 (witness): on a chain returning " hi ", SimpleCall yields " hi "
and Run yields the trimmed "hi". -/
theorem chainRun_refines_golcSimpleCall_witness :
    chainRun chainHi (Value.str "x") = .ok "hi" :=
  (chainRun_refines_golcSimpleCall chainHi (Value.str "x") "in" "out" rfl rfl rfl).2
    " hi " rfl

/-- Helper: with an always-succeeding document prompt and refine unit, the
refine loop produces exactly the expected trace and final running
answer. -/
theorem refineLoop_expected (c : RefineDocuments) (fP fR : ChainValues → String)
    (hP : c.documentPrompt = fun m => .ok (fP m))
    (hR : c.refineCall = fun m => .ok (fR m)) (rest : ChainValues) :
    ∀ (ds : List Document) (res : String),
      refineLoop c ds rest res
        = (.ok (refineExpected c fP fR rest res ds).snd,
           (refineExpected c fP fR rest res ds).fst) := by
  intro ds
  induction ds with
  | nil => intro res; rfl
  | cons d ds ih =>
    intro res
    simp only [refineLoop, refineExpected, RefineDocuments.constructRefineInputs, hP, hR, ih]

/-- Helper: the expected refine trace has one entry per document, each a
refine invocation. -/
theorem refineExpected_shape (c : RefineDocuments) (fP fR : ChainValues → String)
    (rest : ChainValues) :
    ∀ (ds : List Document) (res : String),
      (refineExpected c fP fR rest res ds).fst.length = ds.length ∧
      ∀ inv ∈ (refineExpected c fP fR rest res ds).fst, ∃ m, inv = RefInv.refineInv m := by
  intro ds
  induction ds with
  | nil => intro res; exact ⟨rfl, by intro inv h; cases h⟩
  | cons d ds ih =>
    intro res
    constructor
    · simp only [refineExpected, List.length_cons]
      exact congrArg Nat.succ (ih _).1
    · intro inv hinv
      simp only [refineExpected, List.mem_cons] at hinv
      cases hinv with
      | inl h => exact ⟨_, h⟩
      | inr h => exact (ih _).2 inv h

/-- C5: over a non-empty document sequence, with always-succeeding inner
units, RefineDocuments.Call invokes the initial unit exactly once on inputs
carrying the rendering of the first document, and the refine unit once per
remaining document, each invocation carrying that document's rendering
under the document variable name and the prior running answer under the
initial-response name; the result is the whitespace-trimmed final running
answer under the output key. An empty document sequence yields the
empty-input error, and a non-Document value under the input key yields the
type-mismatch error. -/
theorem refineDocuments_call_spec (c : RefineDocuments) (fP fI fR : ChainValues → String)
    (hP : c.documentPrompt = fun m => .ok (fP m))
    (hI : c.initialCall = fun m => .ok (fI m))
    (hR : c.refineCall = fun m => .ok (fR m)) (values : ChainValues) :
    (∀ d0 ds, cvLookup values c.opts.inputKey = some (Value.docs (d0 :: ds)) →
      RefineDocuments.Call c values
        = (.ok [(c.opts.outputKey, Value.str (trimSpace
            (refineExpected c fP fR (cvOmitByKeys values [c.opts.inputKey])
              (fI (cvInsert (cvOmitByKeys values [c.opts.inputKey])
                c.opts.documentVariableName (Value.str (fP (docInfo d0))))) ds).snd))],
           RefInv.initialInv (cvInsert (cvOmitByKeys values [c.opts.inputKey])
              c.opts.documentVariableName (Value.str (fP (docInfo d0))))
            :: (refineExpected c fP fR (cvOmitByKeys values [c.opts.inputKey])
              (fI (cvInsert (cvOmitByKeys values [c.opts.inputKey])
                c.opts.documentVariableName (Value.str (fP (docInfo d0))))) ds).fst) ∧
      ((RefineDocuments.Call c values).snd.length = ds.length + 1 ∧
       ∀ inv ∈ (refineExpected c fP fR (cvOmitByKeys values [c.opts.inputKey])
              (fI (cvInsert (cvOmitByKeys values [c.opts.inputKey])
                c.opts.documentVariableName (Value.str (fP (docInfo d0))))) ds).fst,
         ∃ m, inv = RefInv.refineInv m)) ∧
    (cvLookup values c.opts.inputKey = some (Value.docs []) →
      RefineDocuments.Call c values
        = (.error (.invalidInputValues "documents slice has no elements"), [])) ∧
    (∀ v, cvLookup values c.opts.inputKey = some v → (∀ ds, v ≠ Value.docs ds) →
      RefineDocuments.Call c values = (.error .inputValuesWrongType, [])) := by
  refine ⟨?_, ?_, ?_⟩
  · intro d0 ds h
    have hmain : RefineDocuments.Call c values
        = (.ok [(c.opts.outputKey, Value.str (trimSpace
            (refineExpected c fP fR (cvOmitByKeys values [c.opts.inputKey])
              (fI (cvInsert (cvOmitByKeys values [c.opts.inputKey])
                c.opts.documentVariableName (Value.str (fP (docInfo d0))))) ds).snd))],
           RefInv.initialInv (cvInsert (cvOmitByKeys values [c.opts.inputKey])
              c.opts.documentVariableName (Value.str (fP (docInfo d0))))
            :: (refineExpected c fP fR (cvOmitByKeys values [c.opts.inputKey])
              (fI (cvInsert (cvOmitByKeys values [c.opts.inputKey])
                c.opts.documentVariableName (Value.str (fP (docInfo d0))))) ds).fst) := by
      simp only [RefineDocuments.Call, h, RefineDocuments.constructInitialInputs, hP, hI,
        refineLoop_expected c fP fR hP hR]
    refine ⟨hmain, ?_, (refineExpected_shape c fP fR _ ds _).2⟩
    rw [hmain]
    simp only [List.length_cons, (refineExpected_shape c fP fR _ ds _).1]
  · intro h
    simp [RefineDocuments.Call, h]
  · intro v h hne
    cases v with
    | docs ds => exact absurd rfl (hne ds)
    | str s => simp [RefineDocuments.Call, h]
    | int n => simp [RefineDocuments.Call, h]
    | nilV => simp [RefineDocuments.Call, h]

/-- C5 (witness): three documents D0, D1, D2 with the default options, an
initial unit answering "r0" and a refine unit appending "x" to the prior
running answer: one initial invocation on D0's rendering, two refine
invocations carrying D1 and D2 with running answers "r0" and "r0x", final
answer "r0xx". -/
theorem refineDocuments_call_spec_witness :
    RefineDocuments.Call refineW
      [("inputDocuments", Value.docs [⟨"D0", []⟩, ⟨"D1", []⟩, ⟨"D2", []⟩])]
      = (.ok [("text", Value.str "r0xx")],
         [RefInv.initialInv [("context", Value.str "D0")],
          RefInv.refineInv [("context", Value.str "D1"), ("existingAnswer", Value.str "r0")],
          RefInv.refineInv [("context", Value.str "D2"), ("existingAnswer", Value.str "r0x")]]) :=
  ((refineDocuments_call_spec refineW
      (fun m => pcOf m) (fun _ => "r0") (fun m => prevOf m ++ "x")
      rfl rfl rfl
      [("inputDocuments", Value.docs [⟨"D0", []⟩, ⟨"D1", []⟩, ⟨"D2", []⟩])]).1
    ⟨"D0", []⟩ [⟨"D1", []⟩, ⟨"D2", []⟩] rfl).1

/-- Helper: when every attempt up to the budget fails with a retryable
error, the combinator uses the whole budget and returns the last error. -/
theorem retryDo_exhaust (retryIf : Err → Bool) (op : Nat → Except Err String)
    (E : Nat → Err) :
    ∀ (fuel a : Nat), 1 ≤ fuel →
      (∀ i, a ≤ i → i < a + fuel → op i = .error (E i) ∧ retryIf (E i) = true) →
      retryDo retryIf op fuel a = (.error (E (a + fuel - 1)), a + fuel - 1) := by
  intro fuel
  induction fuel with
  | zero => intro a h; omega
  | succ f ih =>
    intro a _ h
    have ha := h a (Nat.le_refl a) (by omega)
    cases f with
    | zero =>
      simp only [retryDo, ha.1, ha.2]
      simp
    | succ f' =>
      have hrec := ih (a + 1) (by omega) (by intro i h1 h2; exact h i (by omega) (by omega))
      have hstep : retryDo retryIf op (f' + 1 + 1) a = retryDo retryIf op (f' + 1) (a + 1) := by
        conv_lhs => rw [retryDo]
        simp [ha.1, ha.2]
      rw [hstep, hrec]
      have harith : a + 1 + (f' + 1) - 1 = a + (f' + 1 + 1) - 1 := by omega
      rw [harith]

/-- C8: the Cohere retry wrapper retries a failed attempt exactly when the
error is a backend API error with status 429 or 500; the attempt budget
defaults to 3 with a fixed inter-attempt delay; a non-retryable error is
returned after exactly one attempt; a retryable error is retried, a success
on the second of two attempts being returned after exactly two attempts;
and when every attempt fails retryably the budget is used in full and the
last attempt's error is returned. -/
theorem cohere_generateWithRetry_spec :
    (∀ e, cohereRetryIf e = true ↔ (e = .apiError 429 ∨ e = .apiError 500)) ∧
    cohereDefaultMaxRetries = 3 ∧
    cohereDelayType = .fixedDelay ∧
    (∀ (l : Cohere) (e : Err), 1 ≤ l.maxRetries → l.clientGenerate 1 = .error e →
      cohereRetryIf e = false → l.generateWithRetry = (.error e, 1)) ∧
    (∀ (l : Cohere) (e : Err) (s : String), l.maxRetries = 2 →
      l.clientGenerate 1 = .error e → cohereRetryIf e = true →
      l.clientGenerate 2 = .ok s → l.generateWithRetry = (.ok s, 2)) ∧
    (∀ (l : Cohere) (E : Nat → Err), 1 ≤ l.maxRetries →
      (∀ i, 1 ≤ i → i ≤ l.maxRetries →
        l.clientGenerate i = .error (E i) ∧ cohereRetryIf (E i) = true) →
      l.generateWithRetry = (.error (E l.maxRetries), l.maxRetries)) := by
  refine ⟨?_, rfl, rfl, ?_, ?_, ?_⟩
  · intro e
    cases e <;> simp [cohereRetryIf]
  · intro l e hmax h1 hno
    unfold Cohere.generateWithRetry
    cases hm : l.maxRetries with
    | zero => omega
    | succ k =>
      simp only [retryDo, h1, hno, Bool.false_and, Bool.false_eq_true, if_neg,
        Bool.not_eq_true]
      simp
  · intro l e s hm h1 hr h2
    unfold Cohere.generateWithRetry
    rw [hm]
    simp only [retryDo, h1, hr, h2]
    simp [retryDo, h2]
  · intro l E hmax h
    unfold Cohere.generateWithRetry
    have hmain := retryDo_exhaust cohereRetryIf l.clientGenerate E l.maxRetries 1 hmax
      (by intro i h1 h2; exact h i h1 (by omega))
    rw [hmain]
    have harith : 1 + l.maxRetries - 1 = l.maxRetries := by omega
    rw [harith]

/-- C8 (witness): with 2 max attempts, a first attempt failing with status
429 and a second attempt succeeding, the wrapper returns the success after
exactly 2 attempts. -/
theorem cohere_generateWithRetry_spec_witness :
    Cohere.generateWithRetry cohere429Then = (.ok "done", 2) :=
  cohere_generateWithRetry_spec.2.2.2.2.1 cohere429Then (.apiError 429) "done"
    rfl rfl rfl rfl
